import Mathlib

/-!
The header `breeze_theme.hpp`: detection of the light or dark system theme.

A shallow embedding of `example/breeze_theme.hpp` (namespace
`breeze_stylesheets`) and the properties of its theme resolver.

Modelling conventions
* a `std::string` is the list of its `char`s (`Str`); a `char` is a `Char`;
* `int`/`int32_t` values are `Int`; conversions to 32 bits are written out
  with `toInt32`;
* everything the operating system decides (environment, file system, spawned
  processes, registry, UI settings) is a field of a host record (`Posix`,
  `Windows`), so that a theorem over all hosts covers every probe outcome;
* a call runs in `Run`: it has an outcome (a returned value, a thrown
  exception, or divergence of a loop) and a log of the probes it made.
-/

namespace breeze_stylesheets

/-! ## Data model -/

/-- A `std::string`, as the sequence of its characters. -/
abbrev Str := List Char

/-- The scoped enumeration `theme : int32_t`. A value of the enumeration is
any value of its underlying type, so it is modelled by that value; the three
enumerators are `dark`, `light` and `unknown`. -/
structure theme where
  value : Int
deriving DecidableEq, Repr

/-- Enumerator `dark = 0`. -/
def theme.dark : theme := ⟨0⟩

/-- Enumerator `light = 1`. -/
def theme.light : theme := ⟨1⟩

/-- Enumerator `unknown = 2`. -/
def theme.unknown : theme := ⟨2⟩

/-- The C macro `EXIT_SUCCESS`. -/
def EXIT_SUCCESS : Int := 0

/-- The Windows status `ERROR_SUCCESS`. -/
def ERROR_SUCCESS : Int := 0

/-- Conversion of an integer to `int32_t` (two's complement wrap-around). -/
def toInt32 (x : Int) : Int := (x + 2147483648) % 4294967296 - 2147483648

/-- Exceptions that the code throws or lets through. -/
inductive Exn
  | runtime_error (what : String)
  | os_error (code : Int)
  | invalid_argument
  | out_of_range
deriving DecidableEq, Repr

/-- How a call ends: with a value, with an exception, or not at all (a loop
of the model that ran out of fuel). -/
inductive Outcome (α : Type)
  | returned (a : α)
  | threw (e : Exn)
  | diverged
deriving DecidableEq, Repr

/-- The probes of the outside world that a call makes. -/
inductive Event
  | popen (cmd : Str)
  | RegOpenKeyExW (root : Nat) (path : String)
  | RegQueryValueExW (key : Nat) (name : String)
  | GetColorValue
deriving DecidableEq, Repr

/-- A finished call: the probes it made, in order, and how it ended. -/
structure Run (α : Type) where
  log : List Event
  outcome : Outcome α
deriving DecidableEq, Repr

/-- Normal return, without any probe. -/
def Run.ret {α : Type} (a : α) : Run α := ⟨[], .returned a⟩

/-- Sequencing: the continuation runs only after a normal return; the logs
are concatenated. -/
def Run.andThen {α β : Type} (m : Run α) (f : α → Run β) : Run β :=
  match m.outcome with
  | .returned a => ⟨m.log ++ (f a).log, (f a).outcome⟩
  | .threw e => ⟨m.log, .threw e⟩
  | .diverged => ⟨m.log, .diverged⟩

instance : Monad Run where
  pure := Run.ret
  bind := Run.andThen

/-- The statement `throw e`. -/
def raise {α : Type} (e : Exn) : Run α := ⟨[], .threw e⟩

/-- A loop of the model that did not finish within its fuel. -/
def diverge {α : Type} : Run α := ⟨[], .diverged⟩

/-- Record one probe. -/
def emit (ev : Event) : Run Unit := ⟨[ev], .returned ()⟩

/-- The block `try body catch (...) handler`. -/
def try_catch {α : Type} (body : Run α) (handler : Run α) : Run α :=
  match body.outcome with
  | .threw _ => ⟨body.log ++ handler.log, handler.outcome⟩
  | _ => body

/-! ## Color classifier -/

/-- The function `is_light_color(int r, int g, int b)`:
`((5 * g) + (2 * r) + b) > (8 * 128)` in `int` arithmetic. -/
def is_light_color (r g b : Int) : Bool :=
  decide (toInt32 (toInt32 (toInt32 (5 * g) + toInt32 (2 * r)) + b) > 8 * 128)

/-! ## String helpers -/

/-- The call `value.find(delimiter, pos)` for a character: scan of the
characters from index `i` on. -/
def find_char.go (delimiter : Char) : Str → Nat → Option Nat
  | [], _ => none
  | x :: xs, i => if x = delimiter then some i else find_char.go delimiter xs (i + 1)

/-- The call `value.find(delimiter, pos)`: the first index at or after `pos`
holding `delimiter`; `none` stands for `npos`. -/
def find_char (value : Str) (delimiter : Char) (pos : Nat) : Option Nat :=
  find_char.go delimiter (value.drop pos) pos

/-- The call `value.substr(pos, count)`. -/
def substr (value : Str) (pos count : Nat) : Str := (value.drop pos).take count

/-- The loop of `_split`; `start` and `stop` are the variables `start` and
`end` of the source. Without fuel left the loop has not finished (`none`). -/
def _split.loop (value : Str) (delimiter : Char) : Nat → Nat → Option Nat → List Str → Option (List Str)
  | 0, _, _, _ => none
  | _ + 1, _, none, result => some result
  | fuel + 1, start, some stop, result =>
    _split.loop value delimiter fuel (stop + 1) (find_char value delimiter (stop + 1))
      (result ++ [substr value start (stop - start)])

/-- The function `_split(value, delimiter)`. Each iteration moves `end` to a
later index, so `value.length + 1` iterations are enough. -/
def _split (value : Str) (delimiter : Char) : Option (List Str) :=
  _split.loop value delimiter (value.length + 1) 0 (find_char value delimiter 0) []

/-- The function `_to_ascii_lowercase(char c)`:
`(c <= 'Z' && c >= 'A') ? c - ('Z' - 'z') : c`, the subtraction being done in
`int` and the result converted back to `char`. -/
def _to_ascii_lowercase (c : Char) : Char :=
  if c ≤ 'Z' ∧ c ≥ 'A' then
    Char.ofNat (Int.toNat ((c.toNat : Int) - ((('Z').toNat : Int) - (('z').toNat : Int))))
  else c

/-- The scan behind `value.find(pattern)` for a string pattern. -/
def find_str.go (pattern : Str) : Str → Nat → Option Nat
  | [], i => if pattern = [] then some i else none
  | x :: xs, i =>
    if pattern.isPrefixOf (x :: xs) then some i else find_str.go pattern xs (i + 1)

/-- The call `value.find(pattern)`: index of the first occurrence of
`pattern`; `none` stands for `npos`. -/
def find_str (value pattern : Str) : Option Nat := find_str.go pattern value 0

/-! ## POSIX probes -/

/-- The process behind a pipe opened by `popen(cmd, "r")`: what it writes to
its standard output and the status that `pclose` returns for it. -/
structure Pipe where
  stdout : Str
  status : Int
deriving DecidableEq, Repr

/-- A POSIX host. -/
structure Posix where
  /-- The value of `getenv("PATH")`; `none` when the variable is unset. -/
  PATH : Option Str
  /-- The call `stat(path, &sb)`: `none` when it fails, else whether
  `S_ISREG(sb.st_mode)`. -/
  stat : Str → Option Bool
  /-- The value of `access(path, X_OK)`. -/
  access : Str → Int
  /-- The function `std::filesystem::absolute`. -/
  absolute : Str → Str
  /-- The call `popen(cmd, "r")`; `none` when no pipe is created. -/
  popen : Str → Option Pipe

/-- The function `_is_executable_file(path)`. -/
def _is_executable_file (h : Posix) (path : Str) : Bool :=
  match h.stat path with
  | none => false
  | some regular => regular && decide (h.access path = 0)

/-- The expression `directory / name` of `std::filesystem::path` on POSIX:
an absolute `name` replaces `directory`; otherwise a separator is added when
`directory` ends in a file name, and `name` is appended. -/
def path_append (directory name : Str) : Str :=
  if name.head? = some '/' then name
  else if directory ≠ [] ∧ directory.getLast? ≠ some '/' then directory ++ '/' :: name
  else directory ++ name

/-- The `for` loop of `_which` over the split search path. -/
def _which.search (h : Posix) (name : Str) : List Str → Option Str
  | [] => none
  | path :: rest =>
    let full_path := path_append path name
    if _is_executable_file h full_path then some (h.absolute full_path)
    else _which.search h name rest

/-- The function `_which(name)`. -/
def _which (h : Posix) (name : Str) : Run (Option Str) :=
  let path : Str := match h.PATH with
    | some c_path => c_path
    | none => []
  if path = [] then
    if _is_executable_file h name then pure (some (h.absolute name))
    else pure none
  else
    match _split path ':' with
    | none => diverge
    | some paths => pure (_which.search h name paths)

/-- The constant `buffer_size` of `_run_command`. -/
def buffer_size : Nat := 1024

/-- Reading for `fgets`: at most `n` characters, stopping after a newline.
Gives the characters stored and the rest of the stream. -/
def fgets.read : Nat → Str → Str × Str
  | 0, stream => ([], stream)
  | _ + 1, [] => ([], [])
  | n + 1, c :: stream =>
    if c = '\n' then ([c], stream)
    else ((c :: (fgets.read n stream).1), (fgets.read n stream).2)

/-- The call `fgets(buffer, size, pipe)`: `none` (a null pointer) at end of
stream, else the characters stored in the buffer (at most `size - 1`, a
terminating NUL follows them) and the rest of the stream. -/
def fgets (size : Nat) (stream : Str) : Option (Str × Str) :=
  if stream = [] then none else some (fgets.read (size - 1) stream)

/-- The characters of a buffer read as a C string: those before the first
NUL. This is what `result += buffer.data()` appends. -/
def c_str (buffer : Str) : Str := buffer.takeWhile (fun c => c ≠ Char.ofNat 0)

/-- The `while` loop of `_run_command`. Without fuel left the loop has not
finished (`none`). -/
def _run_command.loop : Nat → Str → Str → Option Str
  | 0, _, _ => none
  | fuel + 1, stream, result =>
    match fgets buffer_size stream with
    | none => some result
    | some (buffer, rest) => _run_command.loop fuel rest (result ++ c_str buffer)

/-- The function `_run_command(cmd)`. Every `fgets` that succeeds takes at
least one character off the stream, so `stdout.length + 1` iterations are
enough. The `catch (...)` branch is entered only when growing `result` throws
(out of memory), which strings of the model never do. -/
def _run_command (h : Posix) (cmd : Str) : Run (Option Str × Int) := do
  emit (.popen cmd)
  match h.popen cmd with
  | none => raise (.runtime_error "popen() failed!")
  | some pipe =>
    match _run_command.loop (pipe.stdout.length + 1) pipe.stdout [] with
    | none => diverge
    | some result => pure (some result, pipe.status)

namespace linux

/-- The string `command` of `get_theme`. -/
def command : Str := "gsettings get org.gnome.desktop.interface ".toList

/-- The end of `get_theme`, from `auto stdout = std::get<0>(result)` on: the
theme computed from the result of the last query. -/
def get_theme.resolve (result : Option Str × Int) : Run theme := do
  let stdout := result.1
  if result.2 ≠ EXIT_SUCCESS ∨ stdout.isNone then
    raise (.runtime_error "Unable to get response for the current system theme.")
  let value := (stdout.getD []).map _to_ascii_lowercase
  let is_dark := (find_str value "-dark".toList).isSome
  pure (if is_dark then theme.dark else theme.light)

/-- The function `get_theme()` of the Linux branch. -/
def get_theme (h : Posix) : Run theme := do
  let found ← _which h "gsettings".toList
  if found.isNone then
    raise (.runtime_error "Cannot find gsettings...")
  let mut result ← _run_command h (command ++ "color-scheme".toList)
  if result.2 ≠ EXIT_SUCCESS then
    result ← _run_command h (command ++ "gtk-theme".toList)
  get_theme.resolve result

end linux

/-! ## Windows probes -/

/-- A registry handle `HKEY`. -/
abbrev HKEY := Nat

/-- The predefined handle `HKEY_CURRENT_USER`. -/
def HKEY_CURRENT_USER : HKEY := 0x80000001

/-- The predefined handle `HKEY_LOCAL_MACHINE`. -/
def HKEY_LOCAL_MACHINE : HKEY := 0x80000002

/-- A `Windows::UI::Color`: its red, green and blue channels. -/
structure Color where
  R : Nat
  G : Nat
  B : Nat
deriving DecidableEq, Repr

/-- A Windows host. -/
structure Windows where
  /-- The call `RegOpenKeyExW(root, path, 0, KEY_READ, &key)`: its status and
  the handle stored in `key`. -/
  RegOpenKeyExW : HKEY → String → Int × HKEY
  /-- The call `RegQueryValueExW` into a `DWORD`: its status and the number
  stored. -/
  RegQueryDword : HKEY → String → Int × Nat
  /-- The call `RegQueryValueExW` into the `WCHAR[512]` buffer: its status
  and the string found in the buffer. -/
  RegQueryString : HKEY → String → Int × Str
  /-- The value of `UISettings().GetColorValue(UIColorType::Foreground)`. -/
  Foreground : Color

/-- The type `_winversion`: major, minor, build, platform, SP major,
SP minor. -/
structure _winversion where
  major : Int
  minor : Int
  build : Int
  platform : Int
  sp_major : Int
  sp_minor : Int
deriving DecidableEq, Repr

/-- The comparison `a < b` of `std::tuple`: at each position,
`a_i < b_i || (!(b_i < a_i) && rest)`, the empty rest being false. -/
def _winversion.lt (a b : _winversion) : Bool :=
  decide (a.major < b.major) || (!decide (b.major < a.major) &&
  (decide (a.minor < b.minor) || (!decide (b.minor < a.minor) &&
  (decide (a.build < b.build) || (!decide (b.build < a.build) &&
  (decide (a.platform < b.platform) || (!decide (b.platform < a.platform) &&
  (decide (a.sp_major < b.sp_major) || (!decide (b.sp_major < a.sp_major) &&
  (decide (a.sp_minor < b.sp_minor) || (!decide (b.sp_minor < a.sp_minor) && false)))))))))))

/-- The function `_get_dword_key(key, name)`. The exception carries the
system message of `code`. -/
def _get_dword_key (h : Windows) (key : HKEY) (name : String) : Run Nat := do
  emit (.RegQueryValueExW key name)
  let code := (h.RegQueryDword key name).1
  let result := (h.RegQueryDword key name).2
  if code = ERROR_SUCCESS then pure result else raise (.os_error code)

/-- The function `_get_string_key(key, name)`. -/
def _get_string_key (h : Windows) (key : HKEY) (name : String) : Run Str := do
  emit (.RegQueryValueExW key name)
  let code := (h.RegQueryString key name).1
  let buffer := (h.RegQueryString key name).2
  if code = ERROR_SUCCESS then pure buffer else raise (.os_error code)

/-- The function `_open_hkey(initial, path)`. -/
def _open_hkey (h : Windows) (initial : HKEY) (path : String) : Run HKEY := do
  emit (.RegOpenKeyExW initial path)
  let code := (h.RegOpenKeyExW initial path).1
  let key := (h.RegOpenKeyExW initial path).2
  if code ≠ EXIT_SUCCESS then raise (.os_error code) else pure key

/-- White space as skipped by `std::stoi`. -/
def isspace (c : Char) : Bool :=
  c = ' ' || c = '\t' || c = '\n' || c = Char.ofNat 11 || c = Char.ofNat 12 || c = '\r'

/-- The value of the leading decimal digits of a string. -/
def stoi.digits : Str → Nat → Nat
  | [], acc => acc
  | c :: cs, acc => if c.isDigit then stoi.digits cs (acc * 10 + (c.toNat - 48)) else acc

/-- The standard function `std::stoi` (base 10): white space, an optional
sign, decimal digits. It throws `std::invalid_argument` when there is no
digit and `std::out_of_range` when the number does not fit an `int`. -/
def stoi (str : Str) : Run Int :=
  let body := str.dropWhile isspace
  let negative := decide (body.head? = some '-')
  let number := if body.head? = some '-' ∨ body.head? = some '+' then body.tail else body
  match number with
  | [] => raise .invalid_argument
  | c :: _ =>
    if c.isDigit then
      let magnitude : Int := (stoi.digits number 0 : Nat)
      let result : Int := if negative then -magnitude else magnitude
      if result < -2147483648 ∨ result > 2147483647 then raise .out_of_range else pure result
    else raise .invalid_argument

/-- The function `_get_winversion()`. -/
def _get_winversion (h : Windows) : Run _winversion := do
  let current ← _open_hkey h HKEY_LOCAL_MACHINE "Software\\Microsoft\\Windows NT\\CurrentVersion"
  let platform ← _open_hkey h HKEY_LOCAL_MACHINE "HARDWARE\\DESCRIPTION\\System\\CentralProcessor\\0"
  let major ← _get_dword_key h current "CurrentMajorVersionNumber"
  let minor ← _get_dword_key h current "CurrentMinorVersionNumber"
  let build ← _get_string_key h current "CurrentBuildNumber"
  let platformId ← _get_dword_key h platform "Platform Specific Field 1"
  let build_number ← stoi build
  pure ⟨toInt32 major, toInt32 minor, build_number, toInt32 platformId, toInt32 0, toInt32 0⟩

namespace windows

/-- The string `personalize` of `get_theme`. -/
def personalize : String := "Software\\Microsoft\\Windows\\CurrentVersion\\Themes\\Personalize"

/-- The constant `min_version` of `get_theme`. -/
def min_version : _winversion := ⟨10, 0, 10240, 0, 0, 0⟩

/-- The `try` block of `get_theme`. -/
def get_theme.registry (h : Windows) : Run theme := do
  emit (.RegOpenKeyExW HKEY_CURRENT_USER personalize)
  let code := (h.RegOpenKeyExW HKEY_CURRENT_USER personalize).1
  let key := (h.RegOpenKeyExW HKEY_CURRENT_USER personalize).2
  if code ≠ EXIT_SUCCESS then
    raise (.os_error code)
  let use_light ← _get_dword_key h key "AppsUseLightTheme"
  pure ⟨toInt32 use_light⟩

/-- The `catch (...)` block of `get_theme`. -/
def get_theme.fallback (h : Windows) : Run theme := do
  let winver ← _get_winversion h
  if winver.lt min_version then
    pure theme.unknown
  else
    emit .GetColorValue
    let foreground := h.Foreground
    let light_foreground := is_light_color foreground.R foreground.G foreground.B
    pure (if light_foreground then theme.dark else theme.light)

/-- The function `get_theme()` of the Windows branch. -/
def get_theme (h : Windows) : Run theme :=
  try_catch (get_theme.registry h) (get_theme.fallback h)

end windows

/-! ## Example hosts -/

/-- A desktop whose `gsettings` lives in `/usr/bin`, with the given answers
to the `color-scheme` and `gtk-theme` queries. -/
def desktop (color_scheme gtk_theme : Option Pipe) : Posix where
  PATH := some "/usr/local/bin:/usr/bin:/bin".toList
  stat := fun p => if p = "/usr/bin/gsettings".toList then some true else none
  access := fun p => if p = "/usr/bin/gsettings".toList then 0 else -1
  absolute := fun p => p
  popen := fun cmd =>
    if cmd = linux.command ++ "color-scheme".toList then color_scheme
    else if cmd = linux.command ++ "gtk-theme".toList then gtk_theme
    else none

/-- A Windows machine: the answer to the `AppsUseLightTheme` query (status
and number), the version numbers found in the registry, and the foreground
color. Every key opens. -/
def machine (flag : Int × Nat) (major minor : Nat) (build : Str) (foreground : Color) : Windows where
  RegOpenKeyExW := fun root path =>
    if root = HKEY_CURRENT_USER then (0, 100)
    else if path = "Software\\Microsoft\\Windows NT\\CurrentVersion" then (0, 101)
    else (0, 102)
  RegQueryDword := fun key name =>
    if key = 100 ∧ name = "AppsUseLightTheme" then flag
    else if key = 101 ∧ name = "CurrentMajorVersionNumber" then (0, major)
    else if key = 101 ∧ name = "CurrentMinorVersionNumber" then (0, minor)
    else if key = 102 ∧ name = "Platform Specific Field 1" then (0, 2)
    else (2, 0)
  RegQueryString := fun key name =>
    if key = 101 ∧ name = "CurrentBuildNumber" then (0, build) else (2, [])
  Foreground := foreground

/-! ## Wording of the specification -/

/-- The lowercase letter of an ASCII capital letter; any other character is
left unchanged. -/
def ascii_lowercase (c : Char) : Char :=
  match ("ABCDEFGHIJKLMNOPQRSTUVWXYZ".toList.zip "abcdefghijklmnopqrstuvwxyz".toList).lookup c with
  | some lower => lower
  | none => c

/-- The string `pattern` occurs as a substring of `text`. -/
def occurs_in (pattern text : Str) : Prop :=
  ∃ before after : Str, text = before ++ pattern ++ after

/-- The value of a search path with the given segments: the segments
separated by `:`. -/
def search_path : List Str → Str
  | [] => []
  | [segment] => segment
  | segment :: next :: rest => segment ++ ':' :: search_path (next :: rest)

/-- The chunks that the successive calls of `fgets` in `_run_command` put
into the buffer, in order. -/
def chunks_read : Nat → Str → List Str
  | 0, _ => []
  | fuel + 1, stream =>
    match fgets buffer_size stream with
    | none => []
    | some (buffer, rest) => buffer :: chunks_read fuel rest

/-- The `color-scheme` query of `get_theme`. -/
def color_scheme_query : Str := linux.command ++ "color-scheme".toList

/-- The `gtk-theme` query of `get_theme`. -/
def gtk_theme_query : Str := linux.command ++ "gtk-theme".toList

/-- Status of opening the personalization key in `get_theme`. -/
def windows.open_status (h : Windows) : Int :=
  (h.RegOpenKeyExW HKEY_CURRENT_USER windows.personalize).1

/-- The handle of the personalization key. -/
def windows.personalize_key (h : Windows) : HKEY :=
  (h.RegOpenKeyExW HKEY_CURRENT_USER windows.personalize).2

/-- Status of reading the `AppsUseLightTheme` number under that key. -/
def windows.flag_status (h : Windows) : Int :=
  (h.RegQueryDword (windows.personalize_key h) "AppsUseLightTheme").1

/-- The `AppsUseLightTheme` number that was read. -/
def windows.flag (h : Windows) : Nat :=
  (h.RegQueryDword (windows.personalize_key h) "AppsUseLightTheme").2

/-- The personalization key opens and the `AppsUseLightTheme` number is read
successfully. -/
def windows.flag_read (h : Windows) : Prop :=
  windows.open_status h = ERROR_SUCCESS ∧ windows.flag_status h = ERROR_SUCCESS

instance (h : Windows) : Decidable (windows.flag_read h) := by
  unfold windows.flag_read
  infer_instance

/-- The version tuple `a` is lexicographically lower than `b`: at the first
position where they differ, `a` has the smaller number. -/
def lex_lower (a b : _winversion) : Prop :=
  a.major < b.major ∨ (a.major = b.major ∧
  (a.minor < b.minor ∨ (a.minor = b.minor ∧
  (a.build < b.build ∨ (a.build = b.build ∧
  (a.platform < b.platform ∨ (a.platform = b.platform ∧
  (a.sp_major < b.sp_major ∨ (a.sp_major = b.sp_major ∧
  a.sp_minor < b.sp_minor)))))))))

/-- A host without any executable on its search path. -/
def headless : Posix where
  PATH := some "/usr/local/bin:/usr/bin:/bin:".toList
  stat := fun _ => none
  access := fun _ => -1
  absolute := fun p => p
  popen := fun _ => none

/-- A host whose search path is the single directory `/usr/bin`, which holds
an executable regular file `gsettings`. -/
def single_directory : Posix where
  PATH := some "/usr/bin".toList
  stat := fun p => if p = "/usr/bin/gsettings".toList then some true else none
  access := fun p => if p = "/usr/bin/gsettings".toList then 0 else -1
  absolute := fun p => p
  popen := fun _ => none

/-- A host on which the command `printf` writes the four characters
`a`, NUL, `b`, newline and exits with status 0. -/
def nul_writer : Posix where
  PATH := none
  stat := fun _ => none
  access := fun _ => -1
  absolute := fun p => p
  popen := fun cmd =>
    if cmd = "printf".toList then some ⟨['a', Char.ofNat 0, 'b', '\n'], 0⟩ else none

/-- The executable `name` can be located on the search path of the host:
the value of `PATH` is made of segments separated by `:`, and in one of them
the file `name` is an executable regular file. -/
def on_search_path (h : Posix) (name : Str) : Prop :=
  ∃ segments : List Str, h.PATH = some (search_path segments) ∧
    (∀ segment ∈ segments, ':' ∉ segment) ∧
    ∃ segment ∈ segments, _is_executable_file h (path_append segment name) = true

/-- A desktop whose search path is `/usr/local/bin:/usr/bin`, with
`gsettings` an executable regular file in `/usr/bin`, the last segment, and
with the given answers to the `color-scheme` and `gtk-theme` queries. -/
def last_segment_desktop (color_scheme gtk_theme : Option Pipe) : Posix where
  PATH := some "/usr/local/bin:/usr/bin".toList
  stat := fun p => if p = "/usr/bin/gsettings".toList then some true else none
  access := fun p => if p = "/usr/bin/gsettings".toList then 0 else -1
  absolute := fun p => p
  popen := fun cmd =>
    if cmd = linux.command ++ "color-scheme".toList then color_scheme
    else if cmd = linux.command ++ "gtk-theme".toList then gtk_theme
    else none

/-! ## The monad of calls -/

@[simp] theorem Run.bind_eq {α β : Type} (m : Run α) (f : α → Run β) :
    m >>= f = m.andThen f := rfl

@[simp] theorem Run.pure_eq {α : Type} (a : α) : (pure a : Run α) = Run.ret a := rfl

/-! ## Reading a pipe -/

theorem fgets_read_append (n : Nat) (stream : Str) :
    (fgets.read n stream).1 ++ (fgets.read n stream).2 = stream := by
  induction n generalizing stream with
  | zero => simp [fgets.read]
  | succ n ih =>
    cases stream with
    | nil => simp [fgets.read]
    | cons c cs =>
      by_cases hc : c = '\n'
      · simp [fgets.read, hc]
      · simp [fgets.read, hc, ih cs]

theorem fgets_read_shorter (n : Nat) (c : Char) (stream : Str) :
    (fgets.read (n + 1) (c :: stream)).2.length ≤ stream.length := by
  induction n generalizing c stream with
  | zero =>
    by_cases hc : c = '\n' <;> simp [fgets.read, hc]
  | succ n ih =>
    by_cases hc : c = '\n'
    · simp [fgets.read, hc]
    · cases stream with
      | nil => simp [fgets.read, hc]
      | cons d ds =>
        have := ih d ds
        simp only [fgets.read, hc, if_false, List.length_cons] at this ⊢
        omega

theorem c_str_of_no_nul (buffer : Str) (hb : ∀ c ∈ buffer, c ≠ Char.ofNat 0) :
    c_str buffer = buffer := by
  unfold c_str
  rw [List.takeWhile_eq_self_iff]
  intro c hc
  simpa using hb c hc

/-- The read loop ends when its fuel exceeds the length of the stream. -/
theorem run_command_loop_terminates (fuel : Nat) (stream result : Str)
    (hfuel : stream.length < fuel) : ∃ r, _run_command.loop fuel stream result = some r := by
  induction fuel generalizing stream result with
  | zero => omega
  | succ fuel ih =>
    cases stream with
    | nil => exact ⟨result, by simp [_run_command.loop, fgets]⟩
    | cons c cs =>
      have hlen := fgets_read_shorter (buffer_size - 1 - 1) c cs
      have hsize : buffer_size - 1 = buffer_size - 1 - 1 + 1 := by decide
      rw [← hsize] at hlen
      simp only [_run_command.loop, fgets, if_false, reduceCtorEq]
      apply ih
      simp only [List.length_cons] at hfuel
      omega

/-- On a stream without NUL characters the read loop appends the whole
stream to `result`. -/
theorem run_command_loop_exact (fuel : Nat) (stream result : Str)
    (hfuel : stream.length < fuel) (hnul : ∀ c ∈ stream, c ≠ Char.ofNat 0) :
    _run_command.loop fuel stream result = some (result ++ stream) := by
  induction fuel generalizing stream result with
  | zero => omega
  | succ fuel ih =>
    cases stream with
    | nil => simp [_run_command.loop, fgets]
    | cons c cs =>
      have hlen := fgets_read_shorter (buffer_size - 1 - 1) c cs
      have hsize : buffer_size - 1 = buffer_size - 1 - 1 + 1 := by decide
      rw [← hsize] at hlen
      have happ := fgets_read_append (buffer_size - 1) (c :: cs)
      simp only [_run_command.loop, fgets, if_false, reduceCtorEq]
      have hbuf : ∀ x ∈ (fgets.read (buffer_size - 1) (c :: cs)).1, x ≠ Char.ofNat 0 := by
        intro x hx
        apply hnul
        rw [← happ]
        exact List.mem_append_left _ hx
      have hrest : ∀ x ∈ (fgets.read (buffer_size - 1) (c :: cs)).2, x ≠ Char.ofNat 0 := by
        intro x hx
        apply hnul
        rw [← happ]
        exact List.mem_append_right _ hx
      rw [ih _ _ (by simp only [List.length_cons] at hfuel; omega) hrest,
        c_str_of_no_nul _ hbuf, List.append_assoc, happ]

theorem fgets_read_length (n : Nat) (stream : Str) : (fgets.read n stream).1.length ≤ n := by
  induction n generalizing stream with
  | zero => simp [fgets.read]
  | succ n ih =>
    cases stream with
    | nil => simp [fgets.read]
    | cons c cs =>
      by_cases hc : c = '\n'
      · simp [fgets.read, hc]
      · have := ih cs
        simp only [fgets.read, hc, if_false, List.length_cons]
        omega

/-- The chunks are at most `buffer_size - 1` characters long and concatenate
to the stream, whatever it holds. -/
theorem chunks_read_spec (fuel : Nat) (stream : Str) (hfuel : stream.length < fuel) :
    (chunks_read fuel stream).flatten = stream ∧
    ∀ chunk ∈ chunks_read fuel stream, chunk.length ≤ buffer_size - 1 := by
  induction fuel generalizing stream with
  | zero => omega
  | succ fuel ih =>
    cases stream with
    | nil => simp [chunks_read, fgets]
    | cons c cs =>
      have hlen := fgets_read_shorter (buffer_size - 1 - 1) c cs
      have hsize : buffer_size - 1 = buffer_size - 1 - 1 + 1 := by decide
      rw [← hsize] at hlen
      have happ := fgets_read_append (buffer_size - 1) (c :: cs)
      have hrec := ih (fgets.read (buffer_size - 1) (c :: cs)).2
        (by simp only [List.length_cons] at hfuel; omega)
      simp only [chunks_read, fgets, if_false, reduceCtorEq, List.flatten_cons, List.mem_cons]
      refine ⟨by rw [hrec.1, happ], ?_⟩
      rintro chunk (hchunk | hchunk)
      · rw [hchunk]
        exact fgets_read_length _ _
      · exact hrec.2 chunk hchunk

/-- The read loop appends the chunks, each cut at its first NUL. -/
theorem run_command_loop_chunks (fuel : Nat) (stream result : Str)
    (hfuel : stream.length < fuel) :
    _run_command.loop fuel stream result =
      some (result ++ ((chunks_read fuel stream).map c_str).flatten) := by
  induction fuel generalizing stream result with
  | zero => omega
  | succ fuel ih =>
    cases stream with
    | nil => simp [_run_command.loop, chunks_read, fgets]
    | cons c cs =>
      have hlen := fgets_read_shorter (buffer_size - 1 - 1) c cs
      have hsize : buffer_size - 1 = buffer_size - 1 - 1 + 1 := by decide
      rw [← hsize] at hlen
      simp only [_run_command.loop, chunks_read, fgets, if_false, reduceCtorEq, List.map_cons,
        List.flatten_cons]
      rw [ih _ _ (by simp only [List.length_cons] at hfuel; omega), List.append_assoc]

/-! ## Character and substring lemmas -/

theorem char_le_iff (a b : Char) : a ≤ b ↔ a.toNat ≤ b.toNat := Iff.rfl

theorem to_ascii_lowercase_capital (c : Char) (h1 : 65 ≤ c.toNat) (h2 : c.toNat ≤ 90) :
    _to_ascii_lowercase c = ascii_lowercase c := by
  have hc : c = Char.ofNat c.toNat := (Char.ofNat_toNat c).symm
  generalize c.toNat = n at hc h1 h2
  subst hc
  interval_cases n <;> decide

theorem ascii_lowercase_other (c : Char) (h : ¬ (65 ≤ c.toNat ∧ c.toNat ≤ 90)) :
    ascii_lowercase c = c := by
  have hne : ∀ l ∈ "ABCDEFGHIJKLMNOPQRSTUVWXYZ".toList, (c == l) = false := by
    intro l hl
    rw [beq_eq_false_iff_ne]
    intro heq
    subst heq
    revert h
    simp only [String.toList, List.mem_cons, List.mem_singleton, List.not_mem_nil, or_false] at hl
    rcases hl with h | h | h | h | h | h | h | h | h | h | h | h | h | h | h | h | h | h | h | h |
      h | h | h | h | h | h <;> subst h <;> decide
  unfold ascii_lowercase
  simp [List.lookup, hne]

theorem to_ascii_lowercase_eq (c : Char) : _to_ascii_lowercase c = ascii_lowercase c := by
  by_cases h : 65 ≤ c.toNat ∧ c.toNat ≤ 90
  · exact to_ascii_lowercase_capital c h.1 h.2
  · rw [ascii_lowercase_other c h]
    unfold _to_ascii_lowercase
    rw [if_neg]
    rw [char_le_iff, ge_iff_le, char_le_iff]
    intro hh
    exact h ⟨hh.2, hh.1⟩

theorem occurs_in_cons (pattern : Str) (x : Char) (xs : Str) :
    occurs_in pattern (x :: xs) ↔ pattern.isPrefixOf (x :: xs) = true ∨ occurs_in pattern xs := by
  rw [List.isPrefixOf_iff_prefix]
  constructor
  · rintro ⟨before, after, heq⟩
    cases before with
    | nil => exact Or.inl ⟨after, by simpa using heq.symm⟩
    | cons b bs =>
      simp only [List.cons_append, List.cons.injEq] at heq
      exact Or.inr ⟨bs, after, heq.2⟩
  · rintro (⟨after, heq⟩ | ⟨before, after, heq⟩)
    · exact ⟨[], after, by simpa using heq.symm⟩
    · exact ⟨x :: before, after, by simp [heq]⟩

theorem find_str_go_isSome (pattern text : Str) (i : Nat) :
    (find_str.go pattern text i).isSome = true ↔ occurs_in pattern text := by
  induction text generalizing i with
  | nil =>
    unfold find_str.go occurs_in
    constructor
    · intro h
      have hp : pattern = [] := by
        by_contra hne
        simp [hne] at h
      exact ⟨[], [], by simp [hp]⟩
    · rintro ⟨before, after, heq⟩
      have hp : pattern = [] := by
        have := congrArg List.length heq
        simp only [List.length_nil, List.length_append] at this
        exact List.length_eq_zero.mp (by omega)
      simp [hp]
  | cons x xs ih =>
    rw [occurs_in_cons]
    unfold find_str.go
    by_cases hp : pattern.isPrefixOf (x :: xs) = true
    · simp [hp]
    · simp only [hp, if_false, false_or, Bool.false_eq_true]
      exact ih (i + 1)

/-- The search `value.find(pattern) != npos` finds exactly the substrings. -/
theorem find_str_isSome (value pattern : Str) :
    (find_str value pattern).isSome = true ↔ occurs_in pattern value :=
  find_str_go_isSome pattern value 0

theorem map_to_ascii_lowercase (t : Str) :
    t.map _to_ascii_lowercase = t.map ascii_lowercase :=
  List.map_congr_left (fun c _ => to_ascii_lowercase_eq c)

/-! ## Splitting the search path -/

theorem find_char_go_bounds (delimiter : Char) (xs : Str) (i e : Nat)
    (h : find_char.go delimiter xs i = some e) : i ≤ e ∧ e < i + xs.length := by
  induction xs generalizing i with
  | nil => simp [find_char.go] at h
  | cons x xs ih =>
    unfold find_char.go at h
    by_cases hx : x = delimiter
    · simp only [hx, if_true, Option.some.injEq] at h
      simp only [List.length_cons]
      omega
    · simp only [hx, if_false] at h
      have := ih (i + 1) h
      simp only [List.length_cons]
      omega

theorem find_char_bounds (value : Str) (delimiter : Char) (pos e : Nat)
    (h : find_char value delimiter pos = some e) : pos ≤ e ∧ e < value.length := by
  have := find_char_go_bounds delimiter (value.drop pos) pos e h
  simp only [List.length_drop] at this
  omega

theorem split_loop_terminates (value : Str) (delimiter : Char) (fuel start : Nat)
    (stop : Option Nat) (result : List Str)
    (hfuel : ∀ e, stop = some e → e < value.length ∧ value.length - e < fuel)
    (hpos : 0 < fuel) :
    ∃ r, _split.loop value delimiter fuel start stop result = some r := by
  induction fuel generalizing start stop result with
  | zero => omega
  | succ fuel ih =>
    cases stop with
    | none => exact ⟨result, rfl⟩
    | some e =>
      unfold _split.loop
      have he := hfuel e rfl
      apply ih
      · intro e2 he2
        have := find_char_bounds value delimiter (e + 1) e2 he2
        omega
      · omega

/-- The loop of `_split` always ends: the fuel of the model is enough. -/
theorem split_terminates (value : Str) (delimiter : Char) :
    ∃ r, _split value delimiter = some r := by
  unfold _split
  apply split_loop_terminates
  · intro e he
    have := find_char_bounds value delimiter 0 e he
    omega
  · omega

theorem find_char_go_absent (delimiter : Char) (xs : Str) (i : Nat)
    (habs : delimiter ∉ xs) : find_char.go delimiter xs i = none := by
  induction xs generalizing i with
  | nil => rfl
  | cons x xs ih =>
    simp only [List.mem_cons, not_or] at habs
    unfold find_char.go
    rw [if_neg (fun hx => habs.1 hx.symm)]
    exact ih (i + 1) habs.2

theorem find_char_go_first (delimiter : Char) (xs rest : Str) (i : Nat)
    (habs : delimiter ∉ xs) :
    find_char.go delimiter (xs ++ delimiter :: rest) i = some (i + xs.length) := by
  induction xs generalizing i with
  | nil => simp [find_char.go]
  | cons x xs ih =>
    simp only [List.mem_cons, not_or] at habs
    rw [List.cons_append]
    unfold find_char.go
    rw [if_neg (fun hx => habs.1 hx.symm), ih (i + 1) habs.2, List.length_cons]
    congr 1
    omega

theorem search_path_length (segments : List Str) :
    segments.length ≤ (search_path segments).length + 1 := by
  induction segments with
  | nil => simp
  | cons segment rest ih =>
    cases rest with
    | nil => simp
    | cons next rest =>
      simp only [search_path, List.length_cons, List.length_append] at ih ⊢
      omega

theorem split_loop_search_path (segments : List Str) (before : Str) (result : List Str)
    (fuel : Nat) (hne : segments ≠ []) (hsep : ∀ segment ∈ segments, ':' ∉ segment)
    (hfuel : segments.length ≤ fuel) :
    _split.loop (before ++ search_path segments) ':' fuel before.length
      (find_char (before ++ search_path segments) ':' before.length) result
      = some (result ++ segments.dropLast) := by
  induction segments generalizing before result fuel with
  | nil => exact absurd rfl hne
  | cons segment rest ih =>
    cases rest with
    | nil =>
      have hfind : find_char (before ++ search_path [segment]) ':' before.length = none := by
        unfold find_char
        rw [List.drop_left]
        exact find_char_go_absent ':' segment before.length (hsep segment (by simp))
      rw [hfind]
      cases fuel with
      | zero => simp at hfuel
      | succ fuel => simp [_split.loop]
    | cons next rest =>
      have hfind : find_char (before ++ search_path (segment :: next :: rest)) ':' before.length
          = some (before.length + segment.length) := by
        unfold find_char
        rw [List.drop_left]
        exact find_char_go_first ':' segment _ before.length (hsep segment (by simp))
      have hsub : substr (before ++ search_path (segment :: next :: rest)) before.length
          (before.length + segment.length - before.length) = segment := by
        unfold substr
        rw [List.drop_left, Nat.add_sub_cancel_left]
        simp [search_path]
      have hvalue : before ++ search_path (segment :: next :: rest)
          = (before ++ segment ++ [':']) ++ search_path (next :: rest) := by
        simp [search_path]
      have hlen : before.length + segment.length + 1 = (before ++ segment ++ [':']).length := by
        simp only [List.length_append, List.length_singleton]
      rw [hfind]
      cases fuel with
      | zero => simp at hfuel
      | succ fuel =>
        unfold _split.loop
        rw [hsub, hvalue, hlen,
          ih (before ++ segment ++ [':']) (result ++ [segment]) fuel (by simp)
            (fun x hx => hsep x (List.mem_cons_of_mem _ hx))
            (by simp only [List.length_cons] at hfuel ⊢; omega)]
        simp [List.dropLast]

/-- What `_split` returns on a search path: its segments without the last
one. -/
theorem split_search_path (segments : List Str) (hne : segments ≠ [])
    (hsep : ∀ segment ∈ segments, ':' ∉ segment) :
    _split (search_path segments) ':' = some segments.dropLast := by
  have h := split_loop_search_path segments [] [] ((search_path segments).length + 1) hne hsep
    (search_path_length segments)
  simpa [_split] using h

/-! ## Locating an executable -/

theorem which_log (h : Posix) (name : Str) : (_which h name).log = [] := by
  unfold _which
  obtain ⟨r, hr⟩ := split_terminates (match h.PATH with | some c_path => c_path | none => []) ':'
  simp only [hr]
  split_ifs <;> rfl

/-- The function `_which` always returns. -/
theorem which_returns (h : Posix) (name : Str) :
    ∃ found, _which h name = ⟨[], .returned found⟩ := by
  unfold _which
  obtain ⟨r, hr⟩ := split_terminates (match h.PATH with | some c_path => c_path | none => []) ':'
  simp only [hr]
  split_ifs
  · exact ⟨_, rfl⟩
  · exact ⟨_, rfl⟩
  · exact ⟨_, rfl⟩

/-! ## Running a command -/

theorem run_command_popen_fails (h : Posix) (cmd : Str) (hp : h.popen cmd = none) :
    _run_command h cmd = ⟨[.popen cmd], .threw (.runtime_error "popen() failed!")⟩ := by
  simp [_run_command, hp, Run.andThen, emit, raise]

theorem run_command_popen_some (h : Posix) (cmd : Str) (pipe : Pipe) (text : Str)
    (hp : h.popen cmd = some pipe)
    (hloop : _run_command.loop (pipe.stdout.length + 1) pipe.stdout [] = some text) :
    _run_command h cmd = ⟨[.popen cmd], .returned (some text, pipe.status)⟩ := by
  simp [_run_command, hp, hloop, Run.andThen, emit, Run.ret]

/-- A call of `_run_command` probes the host once, with `popen(cmd)`. -/
theorem run_command_log (h : Posix) (cmd : Str) : (_run_command h cmd).log = [.popen cmd] := by
  cases hp : h.popen cmd with
  | none => rw [run_command_popen_fails h cmd hp]
  | some pipe =>
    obtain ⟨text, ht⟩ := run_command_loop_terminates (pipe.stdout.length + 1) pipe.stdout []
      (Nat.lt_succ_self _)
    rw [run_command_popen_some h cmd pipe text hp ht]

/-- A call of `_run_command` never diverges: it throws when no pipe is
created and returns a captured text with the status of the process
otherwise. -/
theorem run_command_outcome (h : Posix) (cmd : Str) :
    (h.popen cmd = none ∧
      (_run_command h cmd).outcome = .threw (.runtime_error "popen() failed!")) ∨
    (∃ pipe text, h.popen cmd = some pipe ∧
      (_run_command h cmd).outcome = .returned (some text, pipe.status)) := by
  cases hp : h.popen cmd with
  | none => exact Or.inl ⟨rfl, by rw [run_command_popen_fails h cmd hp]⟩
  | some pipe =>
    obtain ⟨text, ht⟩ := run_command_loop_terminates (pipe.stdout.length + 1) pipe.stdout []
      (Nat.lt_succ_self _)
    exact Or.inr ⟨pipe, text, rfl, by rw [run_command_popen_some h cmd pipe text hp ht]⟩

/-! ## The Linux resolver, path by path -/

theorem run_eq {α : Type} (m : Run α) (l : List Event) (o : Outcome α)
    (hl : m.log = l) (ho : m.outcome = o) : m = ⟨l, o⟩ := by
  cases m
  simp only at hl ho
  rw [hl, ho]

theorem resolve_log (result : Option Str × Int) : (linux.get_theme.resolve result).log = [] := by
  unfold linux.get_theme.resolve
  by_cases hc : result.2 ≠ EXIT_SUCCESS ∨ result.1 = none
  · simp [hc, Run.andThen, raise]
  · simp [hc, Run.andThen, Run.ret]

theorem resolve_success (t : Str) :
    (linux.get_theme.resolve (some t, EXIT_SUCCESS)).outcome =
      .returned (if (find_str (t.map _to_ascii_lowercase) "-dark".toList).isSome
        then theme.dark else theme.light) := by
  simp [linux.get_theme.resolve, Run.andThen, Run.ret]

theorem resolve_failure (result : Option Str × Int)
    (hc : result.2 ≠ EXIT_SUCCESS ∨ result.1 = none) :
    (linux.get_theme.resolve result).outcome =
      .threw (.runtime_error "Unable to get response for the current system theme.") := by
  unfold linux.get_theme.resolve
  simp [hc, Run.andThen, raise]

theorem get_theme_not_found (h : Posix)
    (hw : (_which h "gsettings".toList).outcome = .returned none) :
    linux.get_theme h = ⟨[], .threw (.runtime_error "Cannot find gsettings...")⟩ := by
  have hw2 := run_eq _ _ _ (which_log h "gsettings".toList) hw
  simp only [linux.get_theme, Run.bind_eq, hw2]
  simp [Run.andThen, raise]

theorem get_theme_found (h : Posix) (p : Str)
    (hw : (_which h "gsettings".toList).outcome = .returned (some p)) :
    linux.get_theme h = (_run_command h color_scheme_query).andThen (fun r =>
      if r.2 ≠ EXIT_SUCCESS then (_run_command h gtk_theme_query).andThen linux.get_theme.resolve
      else linux.get_theme.resolve r) := by
  have hw2 := run_eq _ _ _ (which_log h "gsettings".toList) hw
  simp only [linux.get_theme, hw2, Run.andThen, Run.bind_eq, Run.pure_eq, Run.ret,
    color_scheme_query, gtk_theme_query]
  simp only [Option.isNone_some, Bool.false_eq_true, if_false, List.nil_append, Run.ret]

theorem get_theme_color_scheme_throws (h : Posix) (p : Str) (e : Exn)
    (hw : (_which h "gsettings".toList).outcome = .returned (some p))
    (hcs : (_run_command h color_scheme_query).outcome = .threw e) :
    linux.get_theme h = ⟨[.popen color_scheme_query], .threw e⟩ := by
  rw [get_theme_found h p hw]
  simp [Run.andThen, hcs, run_command_log]

theorem get_theme_color_scheme_success (h : Posix) (p : Str) (o : Option Str)
    (hw : (_which h "gsettings".toList).outcome = .returned (some p))
    (hcs : (_run_command h color_scheme_query).outcome = .returned (o, EXIT_SUCCESS)) :
    linux.get_theme h =
      ⟨[.popen color_scheme_query], (linux.get_theme.resolve (o, EXIT_SUCCESS)).outcome⟩ := by
  rw [get_theme_found h p hw]
  simp [Run.andThen, hcs, run_command_log, resolve_log]

theorem get_theme_gtk_theme (h : Posix) (p : Str) (o : Option Str) (c : Int)
    (hw : (_which h "gsettings".toList).outcome = .returned (some p))
    (hcs : (_run_command h color_scheme_query).outcome = .returned (o, c))
    (hc : c ≠ EXIT_SUCCESS) :
    linux.get_theme h =
      ⟨[.popen color_scheme_query, .popen gtk_theme_query],
        ((_run_command h gtk_theme_query).andThen linux.get_theme.resolve).outcome⟩ := by
  rw [get_theme_found h p hw]
  simp only [Run.andThen, hcs, run_command_log, ne_eq, hc, not_false_eq_true, if_true]
  cases hgtk : (_run_command h gtk_theme_query).outcome <;> simp [resolve_log]

/-! ## Linux: classification of the captured text -/

/-- C1. Linux `get_theme`, with `gsettings` found and `t` the captured text
of the query whose result is used (the `color-scheme` query when it exits
with success, else the `gtk-theme` query, with exit status success): the
call returns `dark` if and only if `-dark` occurs as a substring of `t`
after each ASCII capital letter is replaced by its lowercase letter, and
`light` otherwise. In particular `Prefer-Dark` gives `dark` and
`prefer-light` gives `light`. -/
theorem linux_get_theme_classification (h : Posix) (p t : Str)
    (hfound : (_which h "gsettings".toList).outcome = .returned (some p))
    (hused : (_run_command h color_scheme_query).outcome = .returned (some t, EXIT_SUCCESS) ∨
      ∃ o c, (_run_command h color_scheme_query).outcome = .returned (o, c) ∧
        c ≠ EXIT_SUCCESS ∧
        (_run_command h gtk_theme_query).outcome = .returned (some t, EXIT_SUCCESS)) :
    ((linux.get_theme h).outcome = .returned theme.dark ↔
      occurs_in "-dark".toList (t.map ascii_lowercase)) ∧
    ((linux.get_theme h).outcome = .returned theme.light ↔
      ¬ occurs_in "-dark".toList (t.map ascii_lowercase)) ∧
    (t = "Prefer-Dark".toList → (linux.get_theme h).outcome = .returned theme.dark) ∧
    (t = "prefer-light".toList → (linux.get_theme h).outcome = .returned theme.light) := by
  have hout : (linux.get_theme h).outcome =
      .returned (if (find_str (t.map ascii_lowercase) "-dark".toList).isSome
        then theme.dark else theme.light) := by
    rw [← map_to_ascii_lowercase, ← resolve_success]
    rcases hused with hcs | ⟨o, c, hcs, hc, hgtk⟩
    · rw [get_theme_color_scheme_success h p (some t) hfound hcs]
    · rw [get_theme_gtk_theme h p o c hfound hcs hc]
      simp only [Run.andThen, hgtk]
  have hne : theme.dark ≠ theme.light := by decide
  refine ⟨?_, ?_, ?_, ?_⟩
  · rw [hout, ← find_str_isSome]
    by_cases hf : (find_str (t.map ascii_lowercase) "-dark".toList).isSome = true
    · rw [if_pos hf]
      exact ⟨fun _ => hf, fun _ => rfl⟩
    · rw [if_neg hf]
      exact ⟨fun heq => absurd (Outcome.returned.inj heq).symm hne, fun hp => absurd hp hf⟩
  · rw [hout, ← find_str_isSome]
    by_cases hf : (find_str (t.map ascii_lowercase) "-dark".toList).isSome = true
    · rw [if_pos hf]
      exact ⟨fun heq => absurd (Outcome.returned.inj heq) hne, fun hp => absurd hf hp⟩
    · rw [if_neg hf]
      exact ⟨fun _ => hf, fun _ => rfl⟩
  · intro ht
    subst ht
    rw [hout]
    rfl
  · intro ht
    subst ht
    rw [hout]
    rfl

/-- Witness of C1: the desktop answers `'prefer-dark'` to the `color-scheme`
query. -/
theorem linux_get_theme_classification_witness :
    (linux.get_theme (desktop (some ⟨"'prefer-dark'\n".toList, 0⟩) none)).outcome
        = .returned theme.dark ↔
      occurs_in "-dark".toList ("'prefer-dark'\n".toList.map ascii_lowercase) :=
  (linux_get_theme_classification (desktop (some ⟨"'prefer-dark'\n".toList, 0⟩) none)
    "/usr/bin/gsettings".toList "'prefer-dark'\n".toList (by rfl) (Or.inl (by rfl))).1

/-! ## Linux: the `gtk-theme` query as a fallback -/

/-- C2. Linux `get_theme` with `gsettings` found. When the `color-scheme`
query exits with a non-success status, the `gtk-theme` query is run next and
the outcome is the one computed from the `gtk-theme` query alone, whatever
the `color-scheme` query captured; a `gtk-theme` process that writes
`Yaru-dark` and a newline and exits with status 0 gives `dark`. When the
`color-scheme` query exits with success, it is the only query run and the
outcome is computed from its result. -/
theorem linux_get_theme_fallback (h : Posix) (p : Str)
    (hfound : (_which h "gsettings".toList).outcome = .returned (some p)) :
    (∀ o c, (_run_command h color_scheme_query).outcome = .returned (o, c) →
      c ≠ EXIT_SUCCESS →
        (linux.get_theme h).log = [.popen color_scheme_query, .popen gtk_theme_query] ∧
        (linux.get_theme h).outcome =
          ((_run_command h gtk_theme_query).andThen linux.get_theme.resolve).outcome ∧
        (h.popen gtk_theme_query = some ⟨"Yaru-dark\n".toList, 0⟩ →
          (linux.get_theme h).outcome = .returned theme.dark)) ∧
    (∀ o, (_run_command h color_scheme_query).outcome = .returned (o, EXIT_SUCCESS) →
        (linux.get_theme h).log = [.popen color_scheme_query] ∧
        (linux.get_theme h).outcome = (linux.get_theme.resolve (o, EXIT_SUCCESS)).outcome) := by
  constructor
  · intro o c hcs hc
    rw [get_theme_gtk_theme h p o c hfound hcs hc]
    refine ⟨rfl, rfl, ?_⟩
    intro hpipe
    rw [run_command_popen_some h gtk_theme_query ⟨"Yaru-dark\n".toList, 0⟩ "Yaru-dark\n".toList
      hpipe (by rfl)]
    rfl
  · intro o hcs
    rw [get_theme_color_scheme_success h p o hfound hcs]
    exact ⟨rfl, rfl⟩

/-- Witness of C2: the `color-scheme` query exits with status 256 (the key
does not exist) and `gtk-theme` answers `Yaru-dark`. -/
theorem linux_get_theme_fallback_witness :
    (linux.get_theme (desktop (some ⟨"No such key\n".toList, 256⟩)
        (some ⟨"Yaru-dark\n".toList, 0⟩))).log
      = [.popen color_scheme_query, .popen gtk_theme_query] ∧
    (linux.get_theme (desktop (some ⟨"No such key\n".toList, 256⟩)
        (some ⟨"Yaru-dark\n".toList, 0⟩))).outcome = .returned theme.dark :=
  have hw := (linux_get_theme_fallback (desktop (some ⟨"No such key\n".toList, 256⟩)
    (some ⟨"Yaru-dark\n".toList, 0⟩)) "/usr/bin/gsettings".toList (by rfl)).1
      (some "No such key\n".toList) 256 (by rfl) (by decide)
  ⟨hw.1, hw.2.2 (by rfl)⟩

/-! ## Linux: when the resolver fails -/

theorem resolve_throws_iff (result : Option Str × Int) :
    (∃ e, (linux.get_theme.resolve result).outcome = .threw e) ↔
      ¬ ∃ t, result = (some t, EXIT_SUCCESS) := by
  obtain ⟨o, c⟩ := result
  by_cases hc : c = EXIT_SUCCESS
  · cases o with
    | none =>
      rw [resolve_failure _ (Or.inr rfl)]
      simp
    | some t =>
      subst hc
      rw [resolve_success]
      simp
  · rw [resolve_failure _ (Or.inl hc)]
    simp [hc]

theorem resolve_returns_or_throws (result : Option Str × Int) :
    (∃ t, (linux.get_theme.resolve result).outcome = .returned t) ∨
      (∃ e, (linux.get_theme.resolve result).outcome = .threw e) := by
  obtain ⟨o, c⟩ := result
  by_cases hc : c = EXIT_SUCCESS
  · cases o with
    | none => exact Or.inr ⟨_, resolve_failure _ (Or.inr rfl)⟩
    | some t =>
      subst hc
      exact Or.inl ⟨_, resolve_success t⟩
  · exact Or.inr ⟨_, resolve_failure _ (Or.inl hc)⟩

/-- Every call of the Linux `get_theme` ends: it returns a theme or throws. -/
theorem linux_get_theme_total (h : Posix) :
    (∃ t, (linux.get_theme h).outcome = .returned t) ∨
      (∃ e, (linux.get_theme h).outcome = .threw e) := by
  obtain ⟨found, hw⟩ := which_returns h "gsettings".toList
  have hwo : (_which h "gsettings".toList).outcome = .returned found := by rw [hw]
  cases found with
  | none =>
    rw [get_theme_not_found h hwo]
    exact Or.inr ⟨_, rfl⟩
  | some p =>
    rcases run_command_outcome h color_scheme_query with ⟨_, hcs⟩ | ⟨pipe, text, _, hcs⟩
    · rw [get_theme_color_scheme_throws h p _ hwo hcs]
      exact Or.inr ⟨_, rfl⟩
    · by_cases hc : pipe.status = EXIT_SUCCESS
      · rw [hc] at hcs
        rw [get_theme_color_scheme_success h p _ hwo hcs]
        exact resolve_returns_or_throws _
      · rw [get_theme_gtk_theme h p _ _ hwo hcs hc]
        rcases run_command_outcome h gtk_theme_query with ⟨_, hgtk⟩ | ⟨pipe2, text2, _, hgtk⟩
        · simp only [Run.andThen, hgtk]
          exact Or.inr ⟨_, rfl⟩
        · simp only [Run.andThen, hgtk]
          exact resolve_returns_or_throws _

/-- The failures of the Linux `get_theme`, relative to the answer of
`_which`: the call throws (and then returns no theme) if and only if `_which`
returns nothing for `gsettings`, or the last query that was run did not end
with a captured text and exit status success. The last query run is
`color-scheme` when it exits with success and `gtk-theme` when `color-scheme`
exits with another status. When both queries exit with a non-success status
the call throws, and when `_which` returns nothing no command is run at all.
Whether `_which` returns nothing for an executable that is on the search
path is a separate matter, see `split_search_path`. -/
theorem linux_get_theme_failure (h : Posix) :
    ((∃ e, (linux.get_theme h).outcome = .threw e) ↔
      ((_which h "gsettings".toList).outcome = .returned none ∨
        ∃ cmd, (linux.get_theme h).log.getLast? = some (.popen cmd) ∧
          ¬ ∃ t, (_run_command h cmd).outcome = .returned (some t, EXIT_SUCCESS))) ∧
    ((∃ e, (linux.get_theme h).outcome = .threw e) ↔
      ¬ ∃ t, (linux.get_theme h).outcome = .returned t) ∧
    (∀ p o, (_which h "gsettings".toList).outcome = .returned (some p) →
      (_run_command h color_scheme_query).outcome = .returned (o, EXIT_SUCCESS) →
        (linux.get_theme h).log.getLast? = some (.popen color_scheme_query)) ∧
    (∀ p o c, (_which h "gsettings".toList).outcome = .returned (some p) →
      (_run_command h color_scheme_query).outcome = .returned (o, c) → c ≠ EXIT_SUCCESS →
        (linux.get_theme h).log.getLast? = some (.popen gtk_theme_query)) ∧
    (∀ o1 c1 o2 c2, (_run_command h color_scheme_query).outcome = .returned (o1, c1) →
      c1 ≠ EXIT_SUCCESS →
      (_run_command h gtk_theme_query).outcome = .returned (o2, c2) → c2 ≠ EXIT_SUCCESS →
        ∃ e, (linux.get_theme h).outcome = .threw e) ∧
    ((_which h "gsettings".toList).outcome = .returned none → (linux.get_theme h).log = []) := by
  obtain ⟨found, hw⟩ := which_returns h "gsettings".toList
  have hwo : (_which h "gsettings".toList).outcome = .returned found := by rw [hw]
  refine ⟨?_, ?_, ?_, ?_, ?_, ?_⟩
  · cases found with
    | none =>
      rw [get_theme_not_found h hwo]
      exact ⟨fun _ => Or.inl hwo, fun _ => ⟨_, rfl⟩⟩
    | some p =>
      rcases run_command_outcome h color_scheme_query with ⟨_, hcs⟩ | ⟨pipe, text, _, hcs⟩
      · rw [get_theme_color_scheme_throws h p _ hwo hcs]
        refine ⟨fun _ => Or.inr ⟨color_scheme_query, rfl, ?_⟩, fun _ => ⟨_, rfl⟩⟩
        rw [hcs]
        simp
      · by_cases hc : pipe.status = EXIT_SUCCESS
        · rw [hc] at hcs
          rw [get_theme_color_scheme_success h p _ hwo hcs, resolve_throws_iff]
          constructor
          · intro hno
            refine Or.inr ⟨color_scheme_query, rfl, ?_⟩
            rw [hcs]
            rintro ⟨t, ht⟩
            exact hno ⟨t, Outcome.returned.inj ht⟩
          · rintro (hnone | ⟨cmd, hlast, hno⟩)
            · rw [hwo] at hnone
              simp at hnone
            · simp only [List.getLast?_singleton, Option.some.injEq, Event.popen.injEq] at hlast
              subst hlast
              rw [hcs] at hno
              rintro ⟨t, ht⟩
              exact hno ⟨t, by rw [ht]⟩
        · rw [get_theme_gtk_theme h p _ _ hwo hcs hc]
          have hlast2 : ([Event.popen color_scheme_query, Event.popen gtk_theme_query]).getLast?
              = some (Event.popen gtk_theme_query) := rfl
          rcases run_command_outcome h gtk_theme_query with ⟨_, hgtk⟩ | ⟨pipe2, text2, _, hgtk⟩
          · simp only [Run.andThen, hgtk]
            refine ⟨fun _ => Or.inr ⟨gtk_theme_query, rfl, ?_⟩, fun _ => ⟨_, rfl⟩⟩
            rw [hgtk]
            simp
          · simp only [Run.andThen, hgtk]
            rw [resolve_throws_iff]
            constructor
            · intro hno
              refine Or.inr ⟨gtk_theme_query, rfl, ?_⟩
              rw [hgtk]
              rintro ⟨t, ht⟩
              exact hno ⟨t, Outcome.returned.inj ht⟩
            · rintro (hnone | ⟨cmd, hlast, hno⟩)
              · rw [hwo] at hnone
                simp at hnone
              · rw [hlast2] at hlast
                simp only [Option.some.injEq, Event.popen.injEq] at hlast
                subst hlast
                rw [hgtk] at hno
                rintro ⟨t, ht⟩
                exact hno ⟨t, by rw [ht]⟩
  · rcases linux_get_theme_total h with ⟨t, ht⟩ | ⟨e, he⟩
    · rw [ht]
      simp
    · rw [he]
      simp
  · intro p o hp hcs
    rw [get_theme_color_scheme_success h p o hp hcs]
    rfl
  · intro p o c hp hcs hc
    rw [get_theme_gtk_theme h p o c hp hcs hc]
    rfl
  · intro o1 c1 o2 c2 hcs hc1 hgtk hc2
    cases found with
    | none =>
      rw [get_theme_not_found h hwo]
      exact ⟨_, rfl⟩
    | some p =>
      rw [get_theme_gtk_theme h p o1 c1 hwo hcs hc1]
      simp only [Run.andThen, hgtk]
      exact ⟨_, resolve_failure _ (Or.inl hc2)⟩
  · intro hnone
    rw [get_theme_not_found h hnone]

/-- Example: both queries exit with status 256 and the call throws. -/
theorem linux_get_theme_failure_witness :
    ∃ e, (linux.get_theme (desktop (some ⟨"No such key\n".toList, 256⟩)
      (some ⟨"No such key\n".toList, 256⟩))).outcome = .threw e :=
  (linux_get_theme_failure (desktop (some ⟨"No such key\n".toList, 256⟩)
    (some ⟨"No such key\n".toList, 256⟩))).2.2.2.2.1
      (some "No such key\n".toList) 256 (some "No such key\n".toList) 256
      (by rfl) (by decide) (by rfl) (by decide)

/-! ## Windows: the registry and the fallback, path by path -/

theorem registry_open_fails (h : Windows) (hopen : windows.open_status h ≠ ERROR_SUCCESS) :
    windows.get_theme.registry h =
      ⟨[.RegOpenKeyExW HKEY_CURRENT_USER windows.personalize],
        .threw (.os_error (windows.open_status h))⟩ := by
  unfold windows.open_status ERROR_SUCCESS at hopen
  simp [windows.get_theme.registry, windows.open_status, EXIT_SUCCESS, hopen, Run.andThen, emit,
    raise]

theorem registry_read_fails (h : Windows) (hopen : windows.open_status h = ERROR_SUCCESS)
    (hread : windows.flag_status h ≠ ERROR_SUCCESS) :
    windows.get_theme.registry h =
      ⟨[.RegOpenKeyExW HKEY_CURRENT_USER windows.personalize,
          .RegQueryValueExW (windows.personalize_key h) "AppsUseLightTheme"],
        .threw (.os_error (windows.flag_status h))⟩ := by
  unfold windows.open_status ERROR_SUCCESS at hopen
  unfold windows.flag_status windows.personalize_key at hread
  simp [windows.get_theme.registry, windows.flag_status, windows.personalize_key, EXIT_SUCCESS,
    hopen, hread, Run.andThen, emit, raise, Run.ret, _get_dword_key]

theorem registry_read_succeeds (h : Windows) (hread : windows.flag_read h) :
    windows.get_theme.registry h =
      ⟨[.RegOpenKeyExW HKEY_CURRENT_USER windows.personalize,
          .RegQueryValueExW (windows.personalize_key h) "AppsUseLightTheme"],
        .returned ⟨toInt32 (windows.flag h)⟩⟩ := by
  obtain ⟨hopen, hflag⟩ := hread
  unfold windows.open_status ERROR_SUCCESS at hopen
  unfold windows.flag_status windows.personalize_key at hflag
  simp [windows.get_theme.registry, windows.flag, windows.personalize_key, EXIT_SUCCESS,
    hopen, hflag, Run.andThen, emit, raise, Run.ret, _get_dword_key]

/-- When the flag is not read, the `try` block throws after registry probes
only. -/
theorem registry_throws (h : Windows) (hread : ¬ windows.flag_read h) :
    ∃ l e, windows.get_theme.registry h = ⟨l, .threw e⟩ ∧ Event.GetColorValue ∉ l := by
  by_cases hopen : windows.open_status h = ERROR_SUCCESS
  · have hflag : windows.flag_status h ≠ ERROR_SUCCESS := fun hf => hread ⟨hopen, hf⟩
    exact ⟨_, _, registry_read_fails h hopen hflag, by simp⟩
  · exact ⟨_, _, registry_open_fails h hopen, by simp⟩

theorem winversion_lt_iff (a b : _winversion) : a.lt b = true ↔ lex_lower a b := by
  unfold _winversion.lt lex_lower
  simp only [Bool.or_eq_true, Bool.and_eq_true, Bool.not_eq_true', decide_eq_true_eq,
    decide_eq_false_iff_not, Bool.and_false, Bool.or_false, not_lt]
  omega

theorem andThen_log_no_color {α β : Type} (m : Run α) (f : α → Run β)
    (hm : Event.GetColorValue ∉ m.log) (hf : ∀ a, Event.GetColorValue ∉ (f a).log) :
    Event.GetColorValue ∉ (m.andThen f).log := by
  unfold Run.andThen
  cases hmo : m.outcome with
  | returned a =>
    simp only [List.mem_append, not_or]
    exact ⟨hm, hf a⟩
  | threw e => exact hm
  | diverged => exact hm

theorem open_hkey_log (h : Windows) (initial : HKEY) (path : String) :
    Event.GetColorValue ∉ (_open_hkey h initial path).log := by
  unfold _open_hkey
  apply andThen_log_no_color
  · simp [emit]
  · intro _
    simp only []
    split_ifs <;> simp [raise, Run.ret]

theorem get_dword_key_log (h : Windows) (key : HKEY) (name : String) :
    Event.GetColorValue ∉ (_get_dword_key h key name).log := by
  unfold _get_dword_key
  apply andThen_log_no_color
  · simp [emit]
  · intro _
    simp only []
    split_ifs <;> simp [raise, Run.ret]

theorem get_string_key_log (h : Windows) (key : HKEY) (name : String) :
    Event.GetColorValue ∉ (_get_string_key h key name).log := by
  unfold _get_string_key
  apply andThen_log_no_color
  · simp [emit]
  · intro _
    simp only []
    split_ifs <;> simp [raise, Run.ret]

theorem stoi_log (str : Str) : (stoi str).log = [] := by
  unfold stoi
  simp only
  split
  · rfl
  · split_ifs <;> rfl

/-- The version query reads the registry only. -/
theorem get_winversion_log (h : Windows) : Event.GetColorValue ∉ (_get_winversion h).log := by
  unfold _get_winversion
  simp only [Run.bind_eq, Run.pure_eq]
  refine andThen_log_no_color _ _ (open_hkey_log _ _ _) (fun _ => ?_)
  refine andThen_log_no_color _ _ (open_hkey_log _ _ _) (fun _ => ?_)
  refine andThen_log_no_color _ _ (get_dword_key_log _ _ _) (fun _ => ?_)
  refine andThen_log_no_color _ _ (get_dword_key_log _ _ _) (fun _ => ?_)
  refine andThen_log_no_color _ _ (get_string_key_log _ _ _) (fun _ => ?_)
  refine andThen_log_no_color _ _ (get_dword_key_log _ _ _) (fun _ => ?_)
  refine andThen_log_no_color _ _ (by simp [stoi_log]) (fun _ => ?_)
  simp [Run.ret]

theorem fallback_lower (h : Windows) (v : _winversion)
    (hv : (_get_winversion h).outcome = .returned v) (hlt : lex_lower v windows.min_version) :
    windows.get_theme.fallback h = ⟨(_get_winversion h).log, .returned theme.unknown⟩ := by
  rw [← winversion_lt_iff] at hlt
  simp [windows.get_theme.fallback, Run.andThen, hv, hlt, Run.ret]

theorem fallback_not_lower (h : Windows) (v : _winversion)
    (hv : (_get_winversion h).outcome = .returned v)
    (hlt : ¬ lex_lower v windows.min_version) :
    windows.get_theme.fallback h = ⟨(_get_winversion h).log ++ [.GetColorValue],
      .returned (if is_light_color h.Foreground.R h.Foreground.G h.Foreground.B
        then theme.dark else theme.light)⟩ := by
  rw [← winversion_lt_iff] at hlt
  simp [windows.get_theme.fallback, Run.andThen, hv, hlt, Run.ret, emit]

theorem fallback_returns (h : Windows) (t : theme)
    (ht : (windows.get_theme.fallback h).outcome = .returned t) :
    ∃ v, (_get_winversion h).outcome = .returned v ∧
      ((lex_lower v windows.min_version ∧ t = theme.unknown) ∨
        (¬ lex_lower v windows.min_version ∧ (t = theme.dark ∨ t = theme.light))) := by
  cases hv : (_get_winversion h).outcome with
  | returned v =>
    refine ⟨v, rfl, ?_⟩
    by_cases hlt : lex_lower v windows.min_version
    · rw [fallback_lower h v hv hlt] at ht
      exact Or.inl ⟨hlt, (Outcome.returned.inj ht).symm⟩
    · rw [fallback_not_lower h v hv hlt] at ht
      refine Or.inr ⟨hlt, ?_⟩
      have := (Outcome.returned.inj ht).symm
      split_ifs at this
      · exact Or.inl this
      · exact Or.inr this
  | threw e =>
    simp [windows.get_theme.fallback, Run.andThen, hv] at ht
  | diverged =>
    simp [windows.get_theme.fallback, Run.andThen, hv] at ht

theorem get_theme_of_flag_read (h : Windows) (hread : windows.flag_read h) :
    windows.get_theme h =
      ⟨[.RegOpenKeyExW HKEY_CURRENT_USER windows.personalize,
          .RegQueryValueExW (windows.personalize_key h) "AppsUseLightTheme"],
        .returned ⟨toInt32 (windows.flag h)⟩⟩ := by
  unfold windows.get_theme
  rw [registry_read_succeeds h hread]
  rfl

theorem get_theme_of_flag_not_read (h : Windows) (hread : ¬ windows.flag_read h) :
    ∃ l, Event.GetColorValue ∉ l ∧
      windows.get_theme h = ⟨l ++ (windows.get_theme.fallback h).log,
        (windows.get_theme.fallback h).outcome⟩ := by
  obtain ⟨l, e, hreg, hl⟩ := registry_throws h hread
  refine ⟨l, hl, ?_⟩
  unfold windows.get_theme
  rw [hreg]
  rfl

/-! ## Windows: the registry path -/

/-- C4. Windows `get_theme`: whenever the personalization key opens and the
`AppsUseLightTheme` number is read successfully, the call returns `dark` for
the number 0 and `light` for the number 1, and its only probes are the
opening of that key and the reading of that number: no key of the version
query is opened and the foreground color is not asked for. -/
theorem windows_get_theme_registry (h : Windows) (hread : windows.flag_read h) :
    (windows.flag h = 0 → (windows.get_theme h).outcome = .returned theme.dark) ∧
    (windows.flag h = 1 → (windows.get_theme h).outcome = .returned theme.light) ∧
    (windows.get_theme h).log =
      [.RegOpenKeyExW HKEY_CURRENT_USER windows.personalize,
        .RegQueryValueExW (windows.personalize_key h) "AppsUseLightTheme"] ∧
    Event.GetColorValue ∉ (windows.get_theme h).log ∧
    (∀ path, Event.RegOpenKeyExW HKEY_LOCAL_MACHINE path ∉ (windows.get_theme h).log) := by
  rw [get_theme_of_flag_read h hread]
  refine ⟨?_, ?_, rfl, by simp, ?_⟩
  · intro h0
    rw [h0]
    rfl
  · intro h1
    rw [h1]
    rfl
  · intro path
    simp [HKEY_LOCAL_MACHINE, HKEY_CURRENT_USER]

/-- Witness of C4: a machine whose `AppsUseLightTheme` is 0. -/
theorem windows_get_theme_registry_witness :
    (windows.get_theme (machine (0, 0) 10 0 "19045".toList ⟨255, 255, 255⟩)).outcome
      = .returned theme.dark :=
  (windows_get_theme_registry (machine (0, 0) 10 0 "19045".toList ⟨255, 255, 255⟩)
    (by decide)).1 (by rfl)

/-! ## The values that `get_theme` returns -/

theorem resolve_returns (result : Option Str × Int) (t : theme)
    (ht : (linux.get_theme.resolve result).outcome = .returned t) :
    t = theme.dark ∨ t = theme.light := by
  obtain ⟨o, c⟩ := result
  by_cases hc : c = EXIT_SUCCESS
  · cases o with
    | none =>
      rw [resolve_failure _ (Or.inr rfl)] at ht
      simp at ht
    | some text =>
      subst hc
      rw [resolve_success] at ht
      have := (Outcome.returned.inj ht).symm
      split_ifs at this
      · exact Or.inl this
      · exact Or.inr this
  · rw [resolve_failure _ (Or.inl hc)] at ht
    simp at ht

/-- Every value that the Linux `get_theme` returns is `dark` or `light`. -/
theorem linux_get_theme_returns (h : Posix) (t : theme)
    (ht : (linux.get_theme h).outcome = .returned t) : t = theme.dark ∨ t = theme.light := by
  obtain ⟨found, hw⟩ := which_returns h "gsettings".toList
  have hwo : (_which h "gsettings".toList).outcome = .returned found := by rw [hw]
  cases found with
  | none =>
    rw [get_theme_not_found h hwo] at ht
    simp at ht
  | some p =>
    rcases run_command_outcome h color_scheme_query with ⟨_, hcs⟩ | ⟨pipe, text, _, hcs⟩
    · rw [get_theme_color_scheme_throws h p _ hwo hcs] at ht
      simp at ht
    · by_cases hc : pipe.status = EXIT_SUCCESS
      · rw [hc] at hcs
        rw [get_theme_color_scheme_success h p _ hwo hcs] at ht
        exact resolve_returns _ t ht
      · rw [get_theme_gtk_theme h p _ _ hwo hcs hc] at ht
        rcases run_command_outcome h gtk_theme_query with ⟨_, hgtk⟩ | ⟨pipe2, text2, _, hgtk⟩
        · simp [Run.andThen, hgtk] at ht
        · simp only [Run.andThen, hgtk] at ht
          exact resolve_returns _ t ht

/-- Every value that the Windows `get_theme` returns comes from the cast of
the flag that was read, or from the fallback. -/
theorem windows_get_theme_returns (h : Windows) (t : theme)
    (ht : (windows.get_theme h).outcome = .returned t) :
    (windows.flag_read h ∧ t = ⟨toInt32 (windows.flag h)⟩) ∨
    (¬ windows.flag_read h ∧ ∃ v, (_get_winversion h).outcome = .returned v ∧
      ((lex_lower v windows.min_version ∧ t = theme.unknown) ∨
        (¬ lex_lower v windows.min_version ∧ (t = theme.dark ∨ t = theme.light)))) := by
  by_cases hread : windows.flag_read h
  · rw [get_theme_of_flag_read h hread] at ht
    exact Or.inl ⟨hread, (Outcome.returned.inj ht).symm⟩
  · obtain ⟨l, _, hl⟩ := get_theme_of_flag_not_read h hread
    rw [hl] at ht
    exact Or.inr ⟨hread, fallback_returns h t ht⟩

/-- C5 as stated fails: a machine whose `AppsUseLightTheme` number is 5 makes
`get_theme` return the value 5 of the underlying type, which is none of
`dark`, `light`, `unknown`. -/
theorem windows_get_theme_flag_five :
    (windows.get_theme (machine (0, 5) 10 0 "19045".toList ⟨0, 0, 0⟩)).outcome
      = .returned ⟨5⟩ ∧
    (⟨5⟩ : theme) ≠ theme.dark ∧ (⟨5⟩ : theme) ≠ theme.light ∧
    (⟨5⟩ : theme) ≠ theme.unknown := by
  decide

/-- C5 (amended). Tri-state result: the Windows `get_theme` that reads the
flag successfully returns the flag converted to the underlying `int32_t`;
that is one of `dark` (0), `light` (1), `unknown` (2) whenever the flag is 0,
1 or 2. On the Windows fallback path and on Linux every returned value is
one of the three variants, whatever the probes answer. The three variants
are distinct. -/
theorem get_theme_tri_state :
    (∀ (h : Windows) (t : theme), (windows.get_theme h).outcome = .returned t →
      (windows.flag_read h → windows.flag h ≤ 2) →
        t = theme.dark ∨ t = theme.light ∨ t = theme.unknown) ∧
    (∀ (h : Windows) (t : theme), (windows.get_theme h).outcome = .returned t →
      windows.flag_read h → t.value = toInt32 (windows.flag h)) ∧
    (∀ (h : Posix) (t : theme), (linux.get_theme h).outcome = .returned t →
      t = theme.dark ∨ t = theme.light ∨ t = theme.unknown) ∧
    (theme.dark ≠ theme.light ∧ theme.dark ≠ theme.unknown ∧ theme.light ≠ theme.unknown) := by
  refine ⟨?_, ?_, ?_, by decide⟩
  · intro h t ht hflag
    rcases windows_get_theme_returns h t ht with ⟨hread, hval⟩ | ⟨_, v, _, hv⟩
    · have h2 := hflag hread
      rw [hval]
      generalize windows.flag h = n at h2
      interval_cases n
      · exact Or.inl rfl
      · exact Or.inr (Or.inl rfl)
      · exact Or.inr (Or.inr rfl)
    · rcases hv with ⟨_, hu⟩ | ⟨_, hd | hl⟩
      · exact Or.inr (Or.inr hu)
      · exact Or.inl hd
      · exact Or.inr (Or.inl hl)
  · intro h t ht hread
    rw [get_theme_of_flag_read h hread] at ht
    rw [← Outcome.returned.inj ht]
  · intro h t ht
    rcases linux_get_theme_returns h t ht with hd | hl
    · exact Or.inl hd
    · exact Or.inr (Or.inl hl)

/-- Witness of C5 (amended): a machine whose flag is 1 returns `light`. -/
theorem get_theme_tri_state_witness :
    (⟨1⟩ : theme) = theme.dark ∨ (⟨1⟩ : theme) = theme.light ∨ (⟨1⟩ : theme) = theme.unknown :=
  get_theme_tri_state.1 (machine (0, 1) 10 0 "19045".toList ⟨0, 0, 0⟩) ⟨1⟩ (by rfl)
    (fun _ => by decide)

/-- C6 as stated fails: a machine whose `AppsUseLightTheme` number is read
successfully as 2 makes `get_theme` return `unknown` on the registry path,
whatever its version. -/
theorem windows_get_theme_flag_two :
    (windows.get_theme (machine (0, 2) 10 0 "19045".toList ⟨0, 0, 0⟩)).outcome
      = .returned theme.unknown ∧
    windows.flag_read (machine (0, 2) 10 0 "19045".toList ⟨0, 0, 0⟩) ∧
    ¬ lex_lower ⟨10, 0, 19045, 2, 0, 0⟩ windows.min_version := by
  refine ⟨by decide, by decide, ?_⟩
  rw [← winversion_lt_iff]
  decide

/-- C6 (amended). Reachability of `unknown`: every run of the Windows
`get_theme` that returns `unknown` either read the flag successfully with the
value 2, or failed to read the flag and found a version tuple lower than
(10,0,10240,0,0,0). The Linux `get_theme` never returns `unknown`: every run
that returns, returns `dark` or `light`. -/
theorem get_theme_unknown_reachability :
    (∀ h : Windows, (windows.get_theme h).outcome = .returned theme.unknown →
      (windows.flag_read h ∧ toInt32 (windows.flag h) = 2) ∨
      (¬ windows.flag_read h ∧ ∃ v, (_get_winversion h).outcome = .returned v ∧
        lex_lower v windows.min_version)) ∧
    (∀ h : Posix, (linux.get_theme h).outcome ≠ .returned theme.unknown) ∧
    (∀ (h : Posix) (t : theme), (linux.get_theme h).outcome = .returned t →
      t = theme.dark ∨ t = theme.light) := by
  refine ⟨?_, ?_, linux_get_theme_returns⟩
  · intro h ht
    rcases windows_get_theme_returns h _ ht with ⟨hread, hval⟩ | ⟨hread, v, hv, hcase⟩
    · refine Or.inl ⟨hread, ?_⟩
      have := congrArg theme.value hval
      exact this.symm
    · refine Or.inr ⟨hread, v, hv, ?_⟩
      rcases hcase with ⟨hlt, _⟩ | ⟨_, hd | hl⟩
      · exact hlt
      · exact absurd hd (by decide)
      · exact absurd hl (by decide)
  · intro h ht
    rcases linux_get_theme_returns h _ ht with hd | hl
    · exact absurd hd (by decide)
    · exact absurd hl (by decide)

/-- Witness of C6 (amended): Windows 7 without the personalization flag. -/
theorem get_theme_unknown_reachability_witness :
    (windows.flag_read (machine (2, 0) 6 1 "7601".toList ⟨0, 0, 0⟩) ∧
      toInt32 (windows.flag (machine (2, 0) 6 1 "7601".toList ⟨0, 0, 0⟩)) = 2) ∨
    (¬ windows.flag_read (machine (2, 0) 6 1 "7601".toList ⟨0, 0, 0⟩) ∧
      ∃ v, (_get_winversion (machine (2, 0) 6 1 "7601".toList ⟨0, 0, 0⟩)).outcome = .returned v ∧
        lex_lower v windows.min_version) :=
  get_theme_unknown_reachability.1 (machine (2, 0) 6 1 "7601".toList ⟨0, 0, 0⟩) (by rfl)

/-! ## Windows: the fallback path -/

/-- C7. Windows version gate: when the `AppsUseLightTheme` read fails and
the version query returns a tuple lexicographically lower than
(10,0,10240,0,0,0), `get_theme` returns `unknown` and never asks for the
foreground color. -/
theorem windows_version_gate (h : Windows) (v : _winversion)
    (hread : ¬ windows.flag_read h)
    (hv : (_get_winversion h).outcome = .returned v)
    (hlt : lex_lower v windows.min_version) :
    (windows.get_theme h).outcome = .returned theme.unknown ∧
    Event.GetColorValue ∉ (windows.get_theme h).log := by
  obtain ⟨l, hl, heq⟩ := get_theme_of_flag_not_read h hread
  rw [heq, fallback_lower h v hv hlt]
  refine ⟨rfl, ?_⟩
  simp only [List.mem_append, not_or]
  exact ⟨hl, get_winversion_log h⟩

/-- Witness of C7: Windows 7 (6.1.7601) without the personalization flag. -/
theorem windows_version_gate_witness :
    (windows.get_theme (machine (2, 0) 6 1 "7601".toList ⟨255, 255, 255⟩)).outcome
      = .returned theme.unknown ∧
    Event.GetColorValue ∉
      (windows.get_theme (machine (2, 0) 6 1 "7601".toList ⟨255, 255, 255⟩)).log :=
  windows_version_gate (machine (2, 0) 6 1 "7601".toList ⟨255, 255, 255⟩)
    ⟨6, 1, 7601, 2, 0, 0⟩ (by decide) (by rfl) ((winversion_lt_iff _ _).mp (by decide))

/-- C8. Windows inversion rule: when the `AppsUseLightTheme` read fails and
the version query returns a tuple that is not lower than (10,0,10240,0,0,0),
`get_theme` returns `dark` exactly when `is_light_color` holds of the
foreground color and `light` exactly when it does not, for every foreground
color; the foreground (255,255,255) gives `dark`. -/
theorem windows_inversion_rule (h : Windows) (v : _winversion)
    (hread : ¬ windows.flag_read h)
    (hv : (_get_winversion h).outcome = .returned v)
    (hge : ¬ lex_lower v windows.min_version) :
    ((windows.get_theme h).outcome = .returned theme.dark ↔
      is_light_color h.Foreground.R h.Foreground.G h.Foreground.B = true) ∧
    ((windows.get_theme h).outcome = .returned theme.light ↔
      is_light_color h.Foreground.R h.Foreground.G h.Foreground.B = false) ∧
    (h.Foreground = ⟨255, 255, 255⟩ →
      (windows.get_theme h).outcome = .returned theme.dark) ∧
    Event.GetColorValue ∈ (windows.get_theme h).log := by
  obtain ⟨l, hl, heq⟩ := get_theme_of_flag_not_read h hread
  rw [heq, fallback_not_lower h v hv hge]
  have hne : theme.dark ≠ theme.light := by decide
  refine ⟨?_, ?_, ?_, by simp⟩
  · cases hc : is_light_color h.Foreground.R h.Foreground.G h.Foreground.B
    · simp only [Bool.false_eq_true, if_false, iff_false]
      exact fun heq2 => hne (Outcome.returned.inj heq2).symm
    · simp
  · cases hc : is_light_color h.Foreground.R h.Foreground.G h.Foreground.B
    · simp
    · simp only [if_true, Bool.true_eq_false, iff_false]
      exact fun heq2 => hne (Outcome.returned.inj heq2)
  · intro hfg
    rw [hfg]
    rfl

/-- Witness of C8: Windows 10 (10.0.19045) without the personalization
flag, with a white foreground. -/
theorem windows_inversion_rule_witness :
    (windows.get_theme (machine (2, 0) 10 0 "19045".toList ⟨255, 255, 255⟩)).outcome
      = .returned theme.dark :=
  (windows_inversion_rule (machine (2, 0) 10 0 "19045".toList ⟨255, 255, 255⟩)
    ⟨10, 0, 19045, 2, 0, 0⟩ (by decide) (by rfl)
    (fun hl => absurd ((winversion_lt_iff _ _).mpr hl) (by decide))).2.2.1 rfl

/-! ## The search path -/

/-- C9 fails on the code: with the search path `/usr/bin` (one segment,
N = k = 1) and `/usr/bin/gsettings` an executable regular file, `_split`
returns no segment at all, because the text after the last separator is
never added to its result, and `_which` returns nothing. -/
theorem which_misses_last_segment :
    _split "/usr/bin".toList ':' = some [] ∧
    _is_executable_file single_directory (path_append "/usr/bin".toList "gsettings".toList)
      = true ∧
    _which single_directory "gsettings".toList = ⟨[], .returned none⟩ := by
  decide

/-! ## Reassembly of the captured text -/

/-- C10 as stated fails: the command writes `a`, NUL, `b`, newline; the
chunk is appended as a C string, which ends at the NUL, so the captured text
is `a` and not the text that was written. -/
theorem run_command_cuts_at_nul :
    nul_writer.popen "printf".toList = some ⟨['a', Char.ofNat 0, 'b', '\n'], 0⟩ ∧
    (_run_command nul_writer "printf".toList).outcome = .returned (some ['a'], 0) ∧
    (_run_command nul_writer "printf".toList).outcome
      ≠ .returned (some ['a', Char.ofNat 0, 'b', '\n'], 0) := by
  decide

/-- C10 (amended). Chunked-read reassembly in `_run_command`: for every
standard-output text without a NUL character, of any length and with lines
of any length, the read loop ends and the chunks read one buffer at a time
concatenate to the full text exactly; the call returns that text paired with
the status that `pclose` gives for the process. -/
theorem run_command_reassembles (h : Posix) (cmd : Str) (pipe : Pipe)
    (hpipe : h.popen cmd = some pipe)
    (hnul : ∀ c ∈ pipe.stdout, c ≠ Char.ofNat 0) :
    _run_command.loop (pipe.stdout.length + 1) pipe.stdout [] = some pipe.stdout ∧
    (chunks_read (pipe.stdout.length + 1) pipe.stdout).flatten = pipe.stdout ∧
    (∀ chunk ∈ chunks_read (pipe.stdout.length + 1) pipe.stdout,
      chunk.length ≤ buffer_size - 1) ∧
    (_run_command h cmd).outcome = .returned (some pipe.stdout, pipe.status) := by
  have hloop := run_command_loop_exact (pipe.stdout.length + 1) pipe.stdout []
    (Nat.lt_succ_self _) hnul
  rw [List.nil_append] at hloop
  have hchunks := chunks_read_spec (pipe.stdout.length + 1) pipe.stdout (Nat.lt_succ_self _)
  refine ⟨hloop, hchunks.1, hchunks.2, ?_⟩
  rw [run_command_popen_some h cmd pipe pipe.stdout hpipe hloop]

/-- Witness of C10 (amended): two lines written by the `color-scheme`
query. -/
theorem run_command_reassembles_witness :
    (_run_command (desktop (some ⟨"'prefer-dark'\nand more\n".toList, 0⟩) none)
      color_scheme_query).outcome
      = .returned (some "'prefer-dark'\nand more\n".toList, 0) :=
  (run_command_reassembles (desktop (some ⟨"'prefer-dark'\nand more\n".toList, 0⟩) none)
    color_scheme_query ⟨"'prefer-dark'\nand more\n".toList, 0⟩ (by rfl) (by decide)).2.2.2

/-! ## The search path, in general -/

theorem which_search_first (h : Posix) (name segment : Str) (before after : List Str)
    (hexec : _is_executable_file h (path_append segment name) = true)
    (hbefore : ∀ s ∈ before, _is_executable_file h (path_append s name) = false) :
    _which.search h name (before ++ segment :: after)
      = some (h.absolute (path_append segment name)) := by
  induction before with
  | nil => simp [_which.search, hexec]
  | cons b bs ih =>
    have hb := hbefore b (by simp)
    simp only [List.cons_append, _which.search, hb, Bool.false_eq_true, if_false]
    exact ih (fun s hs => hbefore s (List.mem_cons_of_mem _ hs))

theorem which_search_none (h : Posix) (name : Str) (paths : List Str)
    (hnone : ∀ s ∈ paths, _is_executable_file h (path_append s name) = false) :
    _which.search h name paths = none := by
  induction paths with
  | nil => rfl
  | cons b bs ih =>
    have hb := hnone b (by simp)
    simp only [_which.search, hb, Bool.false_eq_true, if_false]
    exact ih (fun s hs => hnone s (List.mem_cons_of_mem _ hs))

theorem search_path_ne_nil (before after : List Str) (segment : Str) (hafter : after ≠ []) :
    search_path (before ++ segment :: after) ≠ [] := by
  intro hnil
  have hlen := search_path_length (before ++ segment :: after)
  rw [hnil] at hlen
  cases after with
  | nil => exact hafter rfl
  | cons a as =>
    simp only [List.length_append, List.length_cons, List.length_nil] at hlen
    omega

/-- The search of `_which` over every segment but the last: an executable
that sits in a segment followed by at least one more segment, and in no
earlier segment, is found. -/
theorem which_finds_earlier_segment (h : Posix) (name segment : Str)
    (before after : List Str)
    (hpath : h.PATH = some (search_path (before ++ segment :: after)))
    (hafter : after ≠ [])
    (hsep : ∀ s ∈ before ++ segment :: after, ':' ∉ s)
    (hexec : _is_executable_file h (path_append segment name) = true)
    (hbefore : ∀ s ∈ before, _is_executable_file h (path_append s name) = false) :
    _which h name = ⟨[], .returned (some (h.absolute (path_append segment name)))⟩ := by
  have hsplit := split_search_path (before ++ segment :: after) (by simp) hsep
  have hdrop : (before ++ segment :: after).dropLast = before ++ segment :: after.dropLast := by
    rw [List.dropLast_append_of_ne_nil _ (by simp), List.dropLast_cons_of_ne_nil hafter]
  unfold _which
  simp only [hpath, search_path_ne_nil before after segment hafter, if_false, hsplit, hdrop,
    which_search_first h name segment before after.dropLast hexec hbefore]
  rfl

/-- The last segment of the search path is never searched: an executable
that sits in the last segment only is not found. -/
theorem which_never_finds_last_segment (h : Posix) (name segment : Str) (before : List Str)
    (hpath : h.PATH = some (search_path (before ++ [segment])))
    (hne : search_path (before ++ [segment]) ≠ [])
    (hsep : ∀ s ∈ before ++ [segment], ':' ∉ s)
    (hbefore : ∀ s ∈ before, _is_executable_file h (path_append s name) = false) :
    _which h name = ⟨[], .returned none⟩ := by
  have hsplit := split_search_path (before ++ [segment]) (by simp) hsep
  rw [List.dropLast_concat] at hsplit
  unfold _which
  simp only [hpath, hne, if_false, hsplit, which_search_none h name before hbefore]
  rfl


set_option maxRecDepth 100000 in
/-- A line of 1500 characters is read in two chunks, of 1023 and 477
characters. -/
theorem chunks_read_long_line :
    (chunks_read 1501 (List.replicate 1500 'x')).map List.length = [1023, 477] := by
  decide

/-! ## The color classifier -/

/-- The conversion to `int32_t` leaves every number of the 32-bit range
unchanged. -/
theorem toInt32_of_range (x : Int) (hlo : -2147483648 ≤ x) (hhi : x ≤ 2147483647) :
    toInt32 x = x := by
  unfold toInt32
  omega

/-- C11. Color classifier: for all integers `r`, `g`, `b` in [0,255],
`is_light_color(r, g, b)` is true if and only if `5*g + 2*r + b` exceeds
`8 * 128 = 1024`. No step of the `int` computation overflows in that range:
every intermediate value is between 0 and 2040 and the 32-bit conversion
leaves it unchanged. Hence a triple whose weighted value is exactly 1024 is
not light, as is (128,128,128). -/
theorem is_light_color_formula (r g b : Int)
    (hr : 0 ≤ r ∧ r ≤ 255) (hg : 0 ≤ g ∧ g ≤ 255) (hb : 0 ≤ b ∧ b ≤ 255) :
    (is_light_color r g b = true ↔ 5 * g + 2 * r + b > 8 * 128) ∧
    ((8 : Int) * 128 = 1024) ∧
    (toInt32 (5 * g) = 5 * g ∧ toInt32 (2 * r) = 2 * r ∧
      toInt32 (5 * g + 2 * r) = 5 * g + 2 * r ∧
      toInt32 (5 * g + 2 * r + b) = 5 * g + 2 * r + b) ∧
    (0 ≤ 5 * g + 2 * r + b ∧ 5 * g + 2 * r + b ≤ 2040) ∧
    (5 * g + 2 * r + b = 1024 → is_light_color r g b = false) ∧
    is_light_color 128 128 128 = false := by
  obtain ⟨hr0, hr1⟩ := hr
  obtain ⟨hg0, hg1⟩ := hg
  obtain ⟨hb0, hb1⟩ := hb
  have h1 : toInt32 (5 * g) = 5 * g := toInt32_of_range _ (by omega) (by omega)
  have h2 : toInt32 (2 * r) = 2 * r := toInt32_of_range _ (by omega) (by omega)
  have h3 : toInt32 (5 * g + 2 * r) = 5 * g + 2 * r :=
    toInt32_of_range _ (by omega) (by omega)
  have h4 : toInt32 (5 * g + 2 * r + b) = 5 * g + 2 * r + b :=
    toInt32_of_range _ (by omega) (by omega)
  have hval : is_light_color r g b = decide (5 * g + 2 * r + b > 8 * 128) := by
    unfold is_light_color
    rw [h1, h2, h3, h4]
  refine ⟨?_, by norm_num, ⟨h1, h2, h3, h4⟩, ⟨by omega, by omega⟩, ?_, by decide⟩
  · rw [hval, decide_eq_true_eq]
  · intro heq
    rw [hval, decide_eq_false_iff_not]
    omega

/-- Witness of C11: the mid-grey (128,128,128) has the weighted value 1024
and is not light. -/
theorem is_light_color_formula_witness :
    (5 : Int) * 128 + 2 * 128 + 128 = 1024 ∧ is_light_color 128 128 128 = false :=
  ⟨by decide, (is_light_color_formula 128 128 128 ⟨by decide, by decide⟩
    ⟨by decide, by decide⟩ ⟨by decide, by decide⟩).2.2.2.2.1 (by decide)⟩

/-! ## Linux: `gsettings` in the last segment of the search path -/

/-- Whenever `gsettings` sits in the last segment of the search path only,
the Linux `get_theme` throws "Cannot find gsettings..." without running any
command, whatever the queries would answer. -/
theorem linux_get_theme_last_segment (h : Posix) (segment : Str) (before : List Str)
    (hpath : h.PATH = some (search_path (before ++ [segment])))
    (hne : search_path (before ++ [segment]) ≠ [])
    (hsep : ∀ s ∈ before ++ [segment], ':' ∉ s)
    (hbefore : ∀ s ∈ before,
      _is_executable_file h (path_append s "gsettings".toList) = false) :
    linux.get_theme h = ⟨[], .threw (.runtime_error "Cannot find gsettings...")⟩ := by
  apply get_theme_not_found
  rw [which_never_finds_last_segment h "gsettings".toList segment before hpath hne hsep hbefore]

/-- C3 fails on the code: on a desktop whose search path is
`/usr/local/bin:/usr/bin`, with `/usr/bin/gsettings` an executable regular
file and a `color-scheme` query that would answer `'prefer-dark'` with exit
status 0, `gsettings` can be located on the search path and no query has
failed, yet `get_theme` throws "Cannot find gsettings..." and runs no
command: `_which` returns nothing, because `_split` leaves out the last
segment of the search path. -/
theorem linux_get_theme_fails_with_gsettings_on_path :
    on_search_path (last_segment_desktop (some ⟨"'prefer-dark'\n".toList, 0⟩) none)
      "gsettings".toList ∧
    (_run_command (last_segment_desktop (some ⟨"'prefer-dark'\n".toList, 0⟩) none)
      color_scheme_query).outcome = .returned (some "'prefer-dark'\n".toList, EXIT_SUCCESS) ∧
    _which (last_segment_desktop (some ⟨"'prefer-dark'\n".toList, 0⟩) none)
      "gsettings".toList = ⟨[], .returned none⟩ ∧
    linux.get_theme (last_segment_desktop (some ⟨"'prefer-dark'\n".toList, 0⟩) none)
      = ⟨[], .threw (.runtime_error "Cannot find gsettings...")⟩ := by
  refine ⟨⟨["/usr/local/bin".toList, "/usr/bin".toList], by rfl, by decide,
    "/usr/bin".toList, by decide, by decide⟩, by decide, by decide, by decide⟩

end breeze_stylesheets
